import Mathlib

/-!
Verification of the githooks push-policy engine.

The development shallowly embeds the Python sources:
  githooks.py                 (hook loader and push evaluator)
  hooks.d/hookutil.py         (git log / show / attr primitives)
  hooks.d/restrict_branches.py, deny_non_ff.py, py_indent.py,
  hooks.d/copyright.py, rejectmerge.py, pep8hook.py,
  hooks.d/email_mention.py, line_endings.py

External collaborators (the git command-line tool, the regex engine, the
style checker) are modelled as oracles carried by a `Repo` structure; the
hook bodies themselves are translated statement by statement.
-/

/-- The all-zero object id used by git as the null sentinel
(branch creation when it is the old id, deletion when it is the new id). -/
def zeros40 : String := String.mk (List.replicate 40 '0')

/-- Python `str.split(sep)` for a one-character separator: split at every
occurrence, keeping empty fields. -/
def splitOnChar (sep : Char) : List Char → List (List Char)
  | [] => [[]]
  | c :: rest =>
    match splitOnChar sep rest with
    | [] => [[]]
    | g :: gs => if c == sep then [] :: g :: gs else (c :: g) :: gs

/-- Python `str.split(sep)` on a string, as a list of strings. -/
def pySplit (sep : Char) (s : String) : List String :=
  (splitOnChar sep s.data).map fun g => String.mk g

/-- Python `str.strip()`: remove leading and trailing whitespace. -/
def pyStrip (s : String) : String :=
  String.mk (((s.data.dropWhile Char.isWhitespace).reverse.dropWhile
    Char.isWhitespace).reverse)

/-- One diagnostic message of a hook: the dict with keys `at` and `text`
appended to `messages`; `at` is spelled `anchor` here. -/
structure Msg where
  anchor : String
  text : String
deriving DecidableEq, Repr

/-- One parsed line of `git show --first-parent --raw --no-abbrev` output,
as produced by `hookutil.parse_git_show`. -/
structure FileChange where
  old_blob : String
  new_blob : String
  status : String
  path : String
deriving DecidableEq, Repr

/-- The state of the git repository the hooks run against, together with
oracles for the external git subprocesses the hooks spawn.

`commits` lists every commit object in the store; `parentsOf` gives a
the parent ids of a commit; `refs` is the `(refname, sha)` table printed by
`git for-each-ref --format=%(refname)`; `commitMsg` is the `%s` subject
used in `parse_git_log`; `showFiles` is the parsed raw diff of a commit
against its first parent; `blob` is `git show <blob>` file content. -/
structure Repo where
  commits : List String
  parentsOf : String → List String
  refs : List (String × String)
  commitMsg : String → String
  showFiles : String → List FileChange
  blob : String → String
  branchContains : String → String
  pep8TotalErrors : String → Nat

/-- Bounded reachability in the commit graph: `reachesFuel r n a b` holds when
`b` can be reached from `a` following at most `n` parent edges. -/
def reachesFuel (r : Repo) : Nat → String → String → Bool
  | 0, a, b => a == b
  | n + 1, a, b => a == b || (r.parentsOf a).any fun p => reachesFuel r n p b

/-- Reachability used to model the git revision walks: a path in a repository
with `|commits|` commit objects never needs more than `|commits|` edges. -/
def reaches (r : Repo) (a b : String) : Bool :=
  reachesFuel r r.commits.length a b

/-- Model of `git rev-list`/`git log` commit selection: the commits reachable
from one of `tips` and from none of `nots`. -/
def gitRevList (r : Repo) (tips nots : List String) : List String :=
  r.commits.filter fun c =>
    (tips.any fun t => reaches r t c) && nots.all fun n => !reaches r n c

/-- git resolves a refname appearing on a `git log` command line to the
commit it points at. -/
def resolveRef (r : Repo) (rn : String) : String :=
  match r.refs.find? (fun p => p.fst == rn) with
  | some p => p.snd
  | none => rn

/-- `hookutil.parse_git_log` (hookutil.py lines 83-134), returning the commit
ids of the log entries. It lists all refs, removes the branch being pushed,
selects `new_sha` (new branch) or `old_sha..new_sha` (existing branch), and
excludes everything reachable from the remaining refs with `--not`. -/
def parse_git_log (r : Repo) (branch old_sha new_sha : String) : List String :=
  let refnames := r.refs.map Prod.fst
  let refnames := if branch ∈ refnames then refnames.erase branch else refnames
  let rangeNots := if old_sha == zeros40 then [] else [old_sha]
  gitRevList r [new_sha] (rangeNots ++ refnames.map fun rn => resolveRef r rn)

/-- Extension filtering of `hookutil.parse_git_show`:
`any(filepath.endswith(ext) for ext in extensions)`, `None` matches all;
`str.endswith` is the character-level suffix test. -/
def extension_match (filepath : String) (extensions : Option (List String)) : Bool :=
  match extensions with
  | none => true
  | some exts => exts.any fun ext => ext.data.isSuffixOf filepath.data

/-- `hookutil.parse_git_show` (hookutil.py lines 137-179): the files changed
by `sha` against its first parent, filtered by extension. The raw-output
parsing is modelled by the `showFiles` oracle. -/
def parse_git_show (r : Repo) (sha : String) (extensions : Option (List String)) :
    List FileChange :=
  (r.showFiles sha).filter fun f => extension_match f.path extensions

/-! ## The push evaluator, githooks.py `Githooks.run` (lines 147-171) -/

/-- A ref update line read from standard input: `old_sha new_sha branch`. -/
structure RefLine where
  old_sha : String
  new_sha : String
  branch : String

/-- A loaded hook, seen by the evaluator as its bound `check` method. -/
def HookFun : Type := String → String → String → Bool × List Msg

/-- The line printed for one message:
the print of branch, message anchor and message text. -/
def printedLine (branch : String) (m : Msg) : String :=
  "[" ++ branch ++ " @ " ++ m.anchor ++ "]: " ++ m.text

/-- The inner loop of `Githooks.run` over the loaded hooks for one input line:
prints the messages of every check and folds `permit = permit and status`. -/
def runHooksOnLine (hooks : List HookFun) (line : RefLine) (acc : Bool × List String) :
    Bool × List String :=
  hooks.foldl
    (fun acc2 hook =>
      let res := hook line.branch line.old_sha line.new_sha
      (acc2.fst && res.fst, acc2.snd ++ res.snd.map fun m => printedLine line.branch m))
    acc

/-- `Githooks.run`: the outer loop over input lines, returning the final
`permit` together with the transcript printed to standard output. -/
def githooksRun (hooks : List HookFun) (input : List RefLine) : Bool × List String :=
  input.foldl (fun acc line => runHooksOnLine hooks line acc) (true, [])

/-- The process exit status: `sys.exit(1)` when `permit` is false, else
`sys.exit(0)`. -/
def githooksExit (hooks : List HookFun) (input : List RefLine) : Nat :=
  if (githooksRun hooks input).fst then 0 else 1

/-! ## restrict_branches.py -/

/-- One branch-ACL rule. The `policy` and `type` dict entries may be absent
(`none`); a regex field is `none` when `re.compile` fails and otherwise the
match function of the compiled pattern (the regex engine is external, so a
compiled pattern is modelled by its match oracle). The source reads the
`branch` and `user` keys unconditionally, so they are always present here. -/
structure AclRule where
  policy : Option String
  rtype : Option String
  branchRe : Option (String → Bool)
  userRe : Option (String → Bool)

/-- One iteration of the rule loop in `restrict_branches.Hook.check`
(restrict_branches.py lines 76-135): malformed rules are skipped, and a rule
whose branch and user regexes match sets the verdict when its type agrees
with create-vs-update of this push. -/
def aclStep (is_new_branch : Bool) (branch pusher : String) (permit : Bool)
    (rule : AclRule) : Bool :=
  match rule.policy with
  | none => permit
  | some policy =>
    if policy != "allow" && policy != "deny" then permit
    else
      match rule.rtype with
      | none => permit
      | some rule_type =>
        if rule_type != "create" && rule_type != "update" then permit
        else
          match rule.branchRe with
          | none => permit
          | some branch_match =>
            match rule.userRe with
            | none => permit
            | some user_match =>
              if !branch_match branch then permit
              else if !user_match pusher then permit
              else if is_new_branch && rule_type == "create" then policy == "allow"
              else if !is_new_branch && rule_type == "update" then policy == "allow"
              else permit

/-- The denial message of `restrict_branches.Hook.check`. -/
def aclDenyMsg (is_new_branch : Bool) (branch new_sha : String) : Msg :=
  ⟨new_sha, "Error: You have no permission to "
    ++ (if is_new_branch then "create" else "update") ++ " " ++ branch⟩

/-- `restrict_branches.Hook.check` (restrict_branches.py lines 58-146). -/
def restrict_branches_check (pusher : String) (settings : List AclRule)
    (branch old_sha new_sha : String) : Bool × List Msg :=
  let is_new_branch := old_sha == zeros40
  let permit := settings.foldl (aclStep is_new_branch branch pusher) false
  (permit, if !permit then [aclDenyMsg is_new_branch branch new_sha] else [])

/-- Spec-side well-formedness of an ACL rule: valid policy, valid type, both
regexes compile. -/
def aclWellFormed (rule : AclRule) : Bool :=
  (rule.policy == some "allow" || rule.policy == some "deny")
  && (rule.rtype == some "create" || rule.rtype == some "update")
  && rule.branchRe.isSome && rule.userRe.isSome

/-- Spec-side rule applicability: well-formed, branch regex matches the
branch, user regex matches the pusher, and the type agrees with
create-vs-update of this push. -/
def aclRuleMatches (is_new_branch : Bool) (branch pusher : String)
    (rule : AclRule) : Bool :=
  aclWellFormed rule
  && (match rule.branchRe with | some f => f branch | none => false)
  && (match rule.userRe with | some f => f pusher | none => false)
  && rule.rtype == some (if is_new_branch then "create" else "update")

/-- The last applicable rule of the ordered list, as the spec words it. -/
def aclLastMatch (is_new_branch : Bool) (branch pusher : String)
    (settings : List AclRule) : Option AclRule :=
  (settings.filter (aclRuleMatches is_new_branch branch pusher)).getLast?

/-! ## deny_non_ff.py -/

/-- `deny_non_ff.Hook.is_ff_push` (deny_non_ff.py lines 28-44): run
`git rev-list new_sha` for a new branch, else `git rev-list new_sha..old_sha`
(the commits reachable from the old tip and not from the new tip), and call
the push fast-forward when the output is empty. -/
def is_ff_push (r : Repo) (old_sha new_sha : String) : Bool :=
  let revs :=
    if old_sha == zeros40 then gitRevList r [new_sha] []
    else gitRevList r [old_sha] [new_sha]
  revs.isEmpty

/-- The fixed rebase hint appended to the non-fast-forward denial. -/
def nonFfHint : String :=
  String.intercalate "\n"
    ["",
     "Updates were rejected because the tip of your current branch is behind",
     "its remote counterpart. Integrate the remote changes (e.g.",
     "\x27git pull ...\x27) before pushing again.",
     "See the \x27Note about fast-forwards\x27 in \x27git push --help\x27 for details."]

/-- The single denial message of `deny_non_ff.Hook.check`. -/
def nonFfMsg (new_sha : String) : Msg :=
  ⟨new_sha, "Cannot push a non-fast-forward reference" ++ nonFfHint⟩

/-- `deny_non_ff.Hook.check` (deny_non_ff.py lines 46-84): skip deletions,
probe the first configured pattern that compiles and matches the branch
(a pattern is `none` when `re.compile` fails), and deny with the fixed hint
when the probe reports a non-fast-forward. -/
def deny_non_ff_check (r : Repo) (settings : List (Option (String → Bool)))
    (branch old_sha new_sha : String) : Bool × List Msg :=
  if new_sha == zeros40 then (true, [])
  else
    let matched := settings.find? fun re =>
      match re with
      | some f => f branch
      | none => false
    let permit :=
      match matched with
      | some _ => is_ff_push r old_sha new_sha
      | none => true
    (permit, if !permit then [nonFfMsg new_sha] else [])

/-! ## hookutil.get_attr (hookutil.py lines 53-80)

`get_attr` creates a temporary index file with `tempfile.mkstemp`, runs
`git read-tree` and `git check-attr` through `hookutil.run` (which raises
`CalledProcessError` on a non-zero exit status), calls `os.remove` on the
index only after both commands returned, and then parses and asserts on the
`check-attr` output. The embedding returns the call result together with a
flag telling whether the temporary index file was removed. -/

/-- Python-level errors visible to the embedding. -/
inductive PyErr where
  | typeError
  | calledProcessError
  | assertionError
  | indexError
  | runtimeError
deriving DecidableEq, Repr

/-- The outcome of the two git subprocesses spawned by one `get_attr` call:
their exit statuses and the standard output of `git check-attr`. -/
structure GitAttrCall where
  readTreeRet : Int
  checkAttrRet : Int
  checkAttrOut : String

/-- `hookutil.get_attr`. The second component records whether the temporary
index file still exists when the call ends: `os.remove` runs only on the
straight-line path after both subprocesses succeeded, so an exception from
`hookutil.run` leaves the file behind (second component `false` means the
file leaked). -/
def get_attr (call : GitAttrCall) (filename attr : String) :
    Except PyErr String × Bool :=
  if call.readTreeRet != 0 then (Except.error PyErr.calledProcessError, false)
  else if call.checkAttrRet != 0 then (Except.error PyErr.calledProcessError, false)
  else
    let chunks := (splitOnChar ':' call.checkAttrOut.data).map
      fun g => pyStrip (String.mk g)
    match chunks with
    | [] => (Except.error PyErr.indexError, true)
    | [c0] =>
      if c0 != filename then (Except.error PyErr.assertionError, true)
      else (Except.error PyErr.indexError, true)
    | [c0, c1] =>
      if c0 != filename then (Except.error PyErr.assertionError, true)
      else if c1 != attr then (Except.error PyErr.assertionError, true)
      else (Except.error PyErr.indexError, true)
    | c0 :: c1 :: c2 :: _ =>
      if c0 != filename then (Except.error PyErr.assertionError, true)
      else if c1 != attr then (Except.error PyErr.assertionError, true)
      else (Except.ok c2, true)

/-! ## Python call arity

Python raises `TypeError` when a call passes more positional arguments than
the callee has parameters, omits a required parameter, or names a keyword
the callee does not accept. None of the functions modelled here declare
default values or `**kwargs`. -/

/-- Whether a call with `nPos` positional arguments and keyword arguments
named `kw` is accepted by a Python function whose parameters are `sig`. -/
def pyArityOk (sig : List String) (nPos : Nat) (kw : List String) : Bool :=
  decide (nPos ≤ sig.length)
  && (sig.drop nPos).all (fun p => kw.contains p)
  && kw.all (fun k => (sig.drop nPos).contains k)

/-- A Python call: the result when the arity matches, `TypeError` otherwise. -/
def pyCall (sig : List String) (nPos : Nat) (kw : List String) (res : α) :
    Except PyErr α :=
  if pyArityOk sig nPos kw then Except.ok res else Except.error PyErr.typeError

/-- The parameters of `hookutil.parse_git_log` (hookutil.py line 83). -/
def parse_git_log_sig : List String := ["repo", "branch", "old_sha", "new_sha"]

/-- The parameters of `hookutil.send_mail` (hookutil.py line 182). -/
def send_mail_sig : List String := ["mail_to", "smtp_from", "subject"]

/-! ## copyright.py -/

/-- `has_good_copyright` (copyright.py lines 54-62): for every configured
`(start, full)` pattern pair, if the start pattern is found in the file then
the full pattern must be found too. `reSearch pat text` is the oracle for
`re.search(pat, text)`. -/
def has_good_copyright (reSearch : String → String → Bool)
    (file_contents : String) (copyrights : List (String × String)) : Bool :=
  copyrights.all fun c => !(reSearch c.fst file_contents) || reSearch c.snd file_contents

/-- The summary message appended by `copyright.Hook.check` on denial. -/
def copyrightSummaryMsg (settings : List (String × String)) (new_sha : String) : Msg :=
  ⟨new_sha,
    "Please update the copyright strings to match one of the following:\n\n\t- "
      ++ String.intercalate "\n\t- " (settings.map Prod.snd) ++ "\n"⟩

/-- `copyright.Hook.check` (copyright.py lines 30-87). `settings` is the list
of `(start, full)` pattern pairs built in the constructor, with `%Y` already
substituted. The `parse_git_log` call on line 48 passes the keyword argument
`this_branch_only`, which `parse_git_log` does not accept. -/
def copyright_check (reSearch : String → String → Bool) (r : Repo)
    (settings : List (String × String)) (branch old_sha new_sha : String) :
    Except PyErr (Bool × List Msg) := do
  if settings.isEmpty then return (true, [])
  if new_sha == zeros40 then return (true, [])
  let log ← pyCall parse_git_log_sig 4 ["this_branch_only"]
    (parse_git_log r branch old_sha new_sha)
  let res := log.foldl
    (fun (acc : Bool × List Msg) commit =>
      (parse_git_show r commit none).foldl
        (fun acc2 modfile =>
          if modfile.status == "D" then acc2
          else
            let file_contents := r.blob modfile.new_blob
            let permit_file := has_good_copyright reSearch file_contents settings
            (acc2.fst && permit_file,
             if !permit_file then
               acc2.snd ++ [⟨commit, "Error: Bad copyright in file \x27"
                 ++ modfile.path ++ "\x27!"⟩]
             else acc2.snd))
        acc)
    (true, [])
  if !res.fst then return (res.fst, res.snd ++ [copyrightSummaryMsg settings new_sha])
  return res

/-! ## rejectmerge.py -/

/-- Coarse model of `textwrap.wrap` (an external library function): the
merge-rejection message built with it is never produced, because the
`parse_git_log` call raises first. -/
def textwrapWrap (s : String) (_width : Nat) : List String := [s]

/-- `refs/heads/` stripping used for display names. -/
def stripHeads (branch : String) : String := branch.replace "refs/heads/" ""

/-- `rejectmerge.Hook.check` (rejectmerge.py lines 28-108). The
`parse_git_log` call on line 56 passes the keyword argument
`this_branch_only`, which `parse_git_log` does not accept, so the merge
scan below it is dead code. `git rev-list --parents -n 1 c` is modelled from
`parentsOf`; `git branch --contains sha` output is the `branchContains`
oracle. -/
def rejectmerge_check (r : Repo) (branch old_sha new_sha : String) :
    Except PyErr (Bool × List Msg) := do
  if new_sha == zeros40 then return (true, [])
  let log ← pyCall parse_git_log_sig 4 ["this_branch_only"]
    (parse_git_log r branch old_sha new_sha)
  let res := log.foldl
    (fun (acc : Bool × List Msg) commit =>
      let parentCommits := r.parentsOf commit
      if parentCommits.length < 2 then acc
      else
        let parentBranches := parentCommits.foldl
          (fun bs parentCommit =>
            let out := r.branchContains parentCommit
            if out == "" then bs ++ [stripHeads branch]
            else bs ++ (out.trim.splitOn "\n").map fun br => br.replace "* " "")
          []
        if parentBranches.dedup.length > 1 then acc
        else
          let mergedBranch := parentBranches.headD ""
          let firstParent := parentCommits.headD ""
          let out := r.branchContains firstParent
          if !out.startsWith "* " then
            (false,
             acc.snd ++ [⟨commit,
               String.intercalate "\n"
                 (["Merging a remote branch onto a local branch is prohibited when updating the remote with that local branch.",
                   ""]
                  ++ textwrapWrap "You must remove this merge by updating your local branch properly. Please rebase on top of the remote branch:" 120
                  ++ ["", "\tgit pull --rebase origin " ++ mergedBranch, ""])⟩])
          else acc)
    (true, [])
  return res

/-! ## pep8hook.py -/

/-- `pep8hook.Hook.check` (pep8hook.py lines 38-119). `pycodestyle_available`
is the module-level flag set by the guarded import on lines 22-28; when it is
false the check returns immediately. The `parse_git_log` call on line 54
passes the keyword argument `this_branch_only`, which `parse_git_log` does
not accept, so the style run below it is dead code; the pycodestyle report is
the `pep8TotalErrors` oracle. -/
def pep8hook_check (pycodestyle_available : Bool) (r : Repo)
    (branch old_sha new_sha : String) : Except PyErr (Bool × List Msg) := do
  if !pycodestyle_available then return (true, [])
  if new_sha == zeros40 then return (true, [])
  let log ← pyCall parse_git_log_sig 4 ["this_branch_only"]
    (parse_git_log r branch old_sha new_sha)
  let permit := log.foldl
    (fun permit commit =>
      let modfiles := parse_git_show r commit (some [".py"])
      if modfiles.isEmpty then permit
      else permit && (r.pep8TotalErrors commit == 0))
    true
  return (permit, [])

/-! ## The hook loader, githooks.py `Githooks.load` (lines 115-145) -/

/-- The hook modules shipped in hooks.d whose `Hook.__init__` takes
`(self, repo_dir, settings, params)`. -/
def three_param_hooks : List String :=
  ["restrict_branches", "deny_non_ff", "email_mention", "notify",
   "copyright", "rejectmerge", "pep8hook", "py_indent", "merge_check"]

/-- The constructor parameters of each hook module: `line_endings.Hook`
(line_endings.py line 22) takes only `(self, repo_dir, settings)`; an unknown
name fails to import. -/
def hook_ctor_params (name : String) : Option (List String) :=
  if three_param_hooks.contains name then some ["repo_dir", "settings", "params"]
  else if name == "line_endings" then some ["repo_dir", "settings"]
  else none

/-- The parameters of `line_endings.Hook.check` (line_endings.py line 26),
one more than the three arguments `Githooks.run` passes. -/
def line_endings_check_params : List String :=
  ["branch", "old_sha", "new_sha", "pusher"]

/-- The loader loop of `Githooks.load`: construct each configured hook with
the three arguments `(repo_dir, conf[hook], hook_params)`. An `ImportError`
is re-raised as `RuntimeError`; any other exception (such as the `TypeError`
from a constructor arity mismatch) propagates unchanged. -/
def githooksLoadAux : List String → List String → Except PyErr (List String)
  | [], hooks => Except.ok hooks
  | name :: rest, hooks =>
    match hook_ctor_params name with
    | none => Except.error PyErr.runtimeError
    | some sig =>
      match pyCall sig 3 [] name with
      | Except.ok inst => githooksLoadAux rest (hooks ++ [inst])
      | Except.error e => Except.error e

/-- `Githooks.load` over the configured hook names. Loading happens in
`Githooks.__init__`, before `Githooks.run` reads any input line. -/
def githooksLoad (conf : List String) : Except PyErr (List String) :=
  githooksLoadAux conf []

/-! ## email_mention.py

The mention scanner is `re.findall` applied to the commit message with the
pattern an at sign introduced by a non-word character or the start of the
string, capturing a group of word characters and dots that starts and ends
with a word character (or a single word character).

The scanner below is that regex specialised: a match of the pattern places
its at sign either at position 0 (via the start anchor) or directly after a
non-word character (the tail of the one-or-more non-word-character run,
which, being maximal up to the at sign, exists exactly when the preceding
character is non-word); the captured group then starts at the following
character, which must be a word character, and extends over the run of word
characters and dots, backtracking off trailing dots. Matches never overlap
because a captured group contains no at sign and the scan resumes after the
group. -/

/-- Python `\w` for a `str` pattern: ASCII letters, digits and underscore. -/
def isWordChar (c : Char) : Bool := c.isAlpha || c.isDigit || c == '_'

/-- The maximal run of word characters and dots at the head of the list
(the greedy `[\w\.]*` step). -/
def wordDotRun (cs : List Char) : List Char :=
  cs.takeWhile fun c => isWordChar c || c == '.'

/-- The capture group at the head of `rest`: a word character followed by
word characters and dots, backtracked to end on a word character. -/
def mentionGroup (rest : List Char) : Option (List Char) :=
  match rest with
  | [] => none
  | c :: _ =>
    if isWordChar c then
      some ((wordDotRun rest).reverse.dropWhile (fun d => !isWordChar d)).reverse
    else none

/-- `re.findall` of the mention pattern over a commit message. -/
def findMentions (message : String) : List String :=
  let cs := message.toList
  (List.range cs.length).filterMap fun p =>
    let atOk := cs.get? p == some '@'
    let beforeOk :=
      match p, cs.get? (p - 1) with
      | 0, _ => true
      | _ + 1, some c => !isWordChar c
      | _ + 1, none => false
    if atOk && beforeOk then
      match mentionGroup (cs.drop (p + 1)) with
      | some g => some (String.mk g)
      | none => none
    else none

/-- Stable insertion used to model Python `sorted` by the `user` key. -/
def insertSorted (u : String) : List String → List String
  | [] => [u]
  | v :: rest => if u < v then u :: v :: rest else v :: insertSorted u rest

/-- The recipient addresses of the mails composed by
`email_mention.Hook.compose_mail` (email_mention.py lines 35-76): one mail
per distinct mentioned username, keyed `user + "@" + email_domain`. -/
def email_mention_recipients (r : Repo) (email_domain : String)
    (branch old_sha new_sha : String) : List String :=
  let log := parse_git_log r branch old_sha new_sha
  let users := log.bind fun commit => findMentions (r.commitMsg commit)
  let sortedUsers := users.foldl (fun acc u => insertSorted u acc) []
  sortedUsers.dedup.map fun u => u ++ "@" ++ email_domain

/-- `email_mention.Hook.check` (email_mention.py lines 78-105): skip
deletions, compose the mails, then call `hookutil.send_mail` with five
positional arguments `(mails, smtp_from, subject, smtp_server, smtp_port)`
against its three parameters. -/
def email_mention_check (r : Repo) (email_domain : String)
    (branch old_sha new_sha : String) : Except PyErr (Bool × List Msg) := do
  if new_sha == zeros40 then return (true, [])
  let mails := email_mention_recipients r email_domain branch old_sha new_sha
  let _ ← pyCall send_mail_sig 5 [] mails
  return (true, [])

/-! ## py_indent.py -/

/-- Python `line.startswith(c)` for a one-character prefix. -/
def startswith1 (line : String) (c : Char) : Bool := line.data.head? == some c

/-- The line loop of `has_mixed_indent` (py_indent.py lines 46-60): a line
starting with a tab sets `has_tab`, elif a line starts with a space it sets
`has_space`, and the loop returns true as soon as both flags are set. -/
def hasMixedIndentLoop : List String → Bool → Bool → Bool
  | [], _, _ => false
  | line :: rest, has_tab, has_space =>
    let has_tab' := if startswith1 line '\t' then true else has_tab
    let has_space' :=
      if !startswith1 line '\t' && startswith1 line ' ' then true else has_space
    if has_tab' && has_space' then true else hasMixedIndentLoop rest has_tab' has_space'

/-- `has_mixed_indent` over `file_contents.split` on newline. -/
def has_mixed_indent (file_contents : String) : Bool :=
  hasMixedIndentLoop (pySplit '\n' file_contents) false false

/-- The per-file message of `py_indent.Hook.check`. -/
def pyIndentMsg (commit path : String) : Msg :=
  ⟨commit, "Error: file \x27" ++ path ++ "\x27 has mixed indentation"⟩

/-- The body of the modfile loop in `py_indent.Hook.check` (py_indent.py
lines 62-78): skip deleted files, read the new blob, and fold
`permit = permit and permit_py_indent`, appending the message on failure. -/
def py_indent_file_step (r : Repo) (commit : String) (acc2 : Bool × List Msg)
    (modfile : FileChange) : Bool × List Msg :=
  if modfile.status == "D" then acc2
  else
    let file_contents := r.blob modfile.new_blob
    let permit_py_indent := !has_mixed_indent file_contents
    (acc2.fst && permit_py_indent,
     if !permit_py_indent then acc2.snd ++ [pyIndentMsg commit modfile.path]
     else acc2.snd)

/-- The body of the commit loop in `py_indent.Hook.check`: run the modfile
loop over the changed `.py` files of one commit. -/
def py_indent_commit_step (r : Repo) (acc : Bool × List Msg) (commit : String) :
    Bool × List Msg :=
  (parse_git_show r commit (some [".py"])).foldl (py_indent_file_step r commit) acc

/-- `py_indent.Hook.check` (py_indent.py lines 27-80): skip deletions, then
for every commit of `parse_git_log` and every non-deleted changed `.py` file
of `parse_git_show`, deny when the new blob content mixes tab and space
indentation. -/
def py_indent_check (r : Repo) (branch old_sha new_sha : String) :
    Bool × List Msg :=
  if new_sha == zeros40 then (true, [])
  else
    (parse_git_log r branch old_sha new_sha).foldl (py_indent_commit_step r)
      (true, [])

/-! ## Concrete repositories and configurations used by witnesses -/

/-- A repository holding a single root commit and no refs. -/
def repoOneCommit : Repo where
  commits := ["c0"]
  parentsOf := fun _ => []
  refs := []
  commitMsg := fun _ => ""
  showFiles := fun _ => []
  blob := fun _ => ""
  branchContains := fun _ => ""
  pep8TotalErrors := fun _ => 0

/-- Two sibling branches diverged from the common ancestor `c0`: `b1` points
at `c1`, `b2` at `c2`, and `c3` (child of `c1`) is being pushed to `b1`. -/
def repoSiblings : Repo where
  commits := ["c0", "c1", "c2", "c3"]
  parentsOf := fun c =>
    if c == "c1" then ["c0"]
    else if c == "c2" then ["c0"]
    else if c == "c3" then ["c1"]
    else []
  refs := [("refs/heads/b1", "c1"), ("refs/heads/b2", "c2")]
  commitMsg := fun _ => ""
  showFiles := fun _ => []
  blob := fun _ => ""
  branchContains := fun _ => ""
  pep8TotalErrors := fun _ => 0

/-- Two tips `d1` and `d2` diverged from `d0`: moving a branch from `d1` to
`d2` rewrites history. -/
def repoDiverged : Repo where
  commits := ["d0", "d1", "d2"]
  parentsOf := fun c =>
    if c == "d1" then ["d0"]
    else if c == "d2" then ["d0"]
    else []
  refs := []
  commitMsg := fun _ => ""
  showFiles := fun _ => []
  blob := fun _ => ""
  branchContains := fun _ => ""
  pep8TotalErrors := fun _ => 0

/-- A repository whose single pushed commit mentions `@somebody` in its
message. -/
def repoMention : Repo where
  commits := ["m0"]
  parentsOf := fun _ => []
  refs := []
  commitMsg := fun c => if c == "m0" then "Some feature.\n@somebody" else ""
  showFiles := fun _ => []
  blob := fun _ => ""
  branchContains := fun _ => ""
  pep8TotalErrors := fun _ => 0

/-- A repository whose pushed commit `p0` modifies `a.py` (tab and space
indentation mixed) and `b.py` (spaces only). -/
def repoPyIndent : Repo where
  commits := ["p0"]
  parentsOf := fun _ => []
  refs := []
  commitMsg := fun _ => ""
  showFiles := fun c =>
    if c == "p0" then
      [⟨"b0", "b1", "M", "a.py"⟩, ⟨"b0", "b2", "M", "b.py"⟩]
    else []
  blob := fun b =>
    if b == "b1" then "def main():\n\tx = 1\n y = 2\n"
    else if b == "b2" then "def g():\n  return 0\n"
    else ""
  branchContains := fun _ => ""
  pep8TotalErrors := fun _ => 0

/-- A deny_non_ff setting whose single pattern matches every branch. -/
def matchAllSettings : List (Option (String → Bool)) := [some fun _ => true]

theorem runHooksOnLine_closed (hooks : List HookFun) (line : RefLine)
    (b : Bool) (t : List String) :
    runHooksOnLine hooks line (b, t) =
      (b && hooks.all (fun h => (h line.branch line.old_sha line.new_sha).fst),
       t ++ hooks.bind fun h =>
         (h line.branch line.old_sha line.new_sha).snd.map fun m =>
           printedLine line.branch m) := by
  induction hooks generalizing b t with
  | nil => simp [runHooksOnLine]
  | cons h hs ih =>
    simp only [runHooksOnLine, List.foldl_cons] at *
    rw [ih]
    simp [Bool.and_assoc, List.append_assoc]

theorem githooksRun_closed (hooks : List HookFun) (input : List RefLine) :
    githooksRun hooks input =
      (input.all fun l => hooks.all fun h => (h l.branch l.old_sha l.new_sha).fst,
       input.bind fun l => hooks.bind fun h =>
         (h l.branch l.old_sha l.new_sha).snd.map fun m => printedLine l.branch m) := by
  suffices H : ∀ b t, input.foldl (fun acc line => runHooksOnLine hooks line acc) (b, t) =
      (b && (input.all fun l => hooks.all fun h => (h l.branch l.old_sha l.new_sha).fst),
       t ++ input.bind fun l => hooks.bind fun h =>
         (h l.branch l.old_sha l.new_sha).snd.map fun m => printedLine l.branch m) by
    simpa [githooksRun] using H true []
  intro b t
  induction input generalizing b t with
  | nil => simp
  | cons l ls ih =>
    simp only [List.foldl_cons]
    rw [runHooksOnLine_closed, ih]
    simp [Bool.and_assoc, List.append_assoc]

/-- Claim C1: for every input line sequence and every loaded hook list, the
exit status of the evaluator is 0 iff every check invocation on every line
returned `permit = true`, it is 1 iff some invocation returned
`permit = false`, and the combined verdict is the conjunction of all
per-check permits. -/
theorem githooks_exit_iff_all_permit (hooks : List HookFun) (input : List RefLine) :
    (githooksExit hooks input = 0 ↔
      ∀ l ∈ input, ∀ h ∈ hooks, (h l.branch l.old_sha l.new_sha).fst = true)
    ∧ (githooksExit hooks input = 1 ↔
      ∃ l ∈ input, ∃ h ∈ hooks, (h l.branch l.old_sha l.new_sha).fst = false)
    ∧ (githooksRun hooks input).fst =
        (input.all fun l => hooks.all fun h => (h l.branch l.old_sha l.new_sha).fst) := by
  have hall : (githooksRun hooks input).fst =
      (input.all fun l => hooks.all fun h => (h l.branch l.old_sha l.new_sha).fst) := by
    rw [githooksRun_closed]
  have hPiff : (input.all fun l => hooks.all fun h => (h l.branch l.old_sha l.new_sha).fst) = true
      ↔ ∀ l ∈ input, ∀ h ∈ hooks, (h l.branch l.old_sha l.new_sha).fst = true := by
    simp [List.all_eq_true]
  have hPfalse : (input.all fun l => hooks.all fun h => (h l.branch l.old_sha l.new_sha).fst) = false
      ↔ ∃ l ∈ input, ∃ h ∈ hooks, (h l.branch l.old_sha l.new_sha).fst = false := by
    rw [Bool.eq_false_iff, Ne, hPiff]
    push_neg
    simp only [Bool.not_eq_true]
  refine ⟨?_, ?_, hall⟩
  · rw [← hPiff]
    unfold githooksExit
    rw [hall]
    cases input.all fun l => hooks.all fun h => (h l.branch l.old_sha l.new_sha).fst <;> simp
  · rw [← hPfalse]
    unfold githooksExit
    rw [hall]
    cases input.all fun l => hooks.all fun h => (h l.branch l.old_sha l.new_sha).fst <;> simp

/-- Claim C5: the evaluator invokes every loaded check on every input line in
registry order, regardless of earlier denials: the printed transcript is the
concatenation, over lines and then over hooks in order, of the messages of
every check, each prefixed with the originating branch. -/
theorem githooks_transcript_all_checks (hooks : List HookFun) (input : List RefLine) :
    (githooksRun hooks input).snd =
      input.bind fun l => hooks.bind fun h =>
        (h l.branch l.old_sha l.new_sha).snd.map fun m => printedLine l.branch m := by
  rw [githooksRun_closed]

theorem some_beq_some (a b : String) : (some a == some b) = (a == b) := rfl

theorem aclStep_eq (inb : Bool) (branch pusher : String) (permit : Bool)
    (rule : AclRule) :
    aclStep inb branch pusher permit rule =
      (if aclRuleMatches inb branch pusher rule then rule.policy == some "allow"
       else permit) := by
  obtain ⟨policy, rtype, bre, ure⟩ := rule
  cases policy with
  | none => simp [aclStep, aclRuleMatches, aclWellFormed]
  | some policy =>
    cases rtype with
    | none => simp [aclStep, aclRuleMatches, aclWellFormed]
    | some rtype =>
      cases bre with
      | none => simp [aclStep, aclRuleMatches, aclWellFormed]
      | some bre =>
        cases ure with
        | none => simp [aclStep, aclRuleMatches, aclWellFormed]
        | some ure =>
          simp only [aclStep, aclRuleMatches, aclWellFormed, Option.isSome_some,
            Bool.and_true, Bool.true_and, some_beq_some, bne]
          cases inb with
          | false =>
            rw [show (if (false : Bool) = true then "create" else "update") = "update"
              from rfl]
            generalize (policy == "allow") = pa
            generalize (policy == "deny") = pd
            generalize (rtype == "create") = rc
            generalize (rtype == "update") = ru
            generalize bre branch = bb
            generalize ure pusher = uu
            revert pa pd rc ru bb uu permit
            decide
          | true =>
            rw [show (if (true : Bool) = true then "create" else "update") = "create"
              from rfl]
            generalize (policy == "allow") = pa
            generalize (policy == "deny") = pd
            generalize (rtype == "create") = rc
            generalize (rtype == "update") = ru
            generalize bre branch = bb
            generalize ure pusher = uu
            revert pa pd rc ru bb uu permit
            decide

theorem acl_foldl_eq_lastMatch (inb : Bool) (branch pusher : String)
    (settings : List AclRule) (init : Bool) :
    settings.foldl (aclStep inb branch pusher) init =
      (match aclLastMatch inb branch pusher settings with
       | some rule => rule.policy == some "allow"
       | none => init) := by
  induction settings using List.reverseRecOn with
  | nil => simp [aclLastMatch]
  | append_singleton l r ih =>
    rw [List.foldl_append, List.foldl_cons, List.foldl_nil, aclStep_eq]
    unfold aclLastMatch at *
    rw [List.filter_append]
    cases hm : aclRuleMatches inb branch pusher r with
    | false =>
      simp only [hm, if_false, List.filter_cons, List.filter_nil, cond_false,
        List.append_nil, Bool.false_eq_true]
      simpa using ih
    | true =>
      simp [hm, List.filter_cons, List.getLast?_concat]

/-- Claim C3: for every ref update and ordered rule list, the ACL verdict is
the policy of the last well-formed rule whose branch regex matches the
branch, whose user regex matches the pusher and whose type matches
create-vs-update of the push (create when `old_sha` is the all-zero
sentinel); with no such rule the verdict is deny, and a denial appends the
single message naming the action and branch, anchored at `new_sha`. -/
theorem restrict_branches_last_match_wins (pusher : String)
    (settings : List AclRule) (branch old_sha new_sha : String) :
    (restrict_branches_check pusher settings branch old_sha new_sha).fst =
      (match aclLastMatch (old_sha == zeros40) branch pusher settings with
       | some rule => rule.policy == some "allow"
       | none => false)
    ∧ (restrict_branches_check pusher settings branch old_sha new_sha).snd =
      (if (restrict_branches_check pusher settings branch old_sha new_sha).fst
       then []
       else [aclDenyMsg (old_sha == zeros40) branch new_sha]) := by
  constructor
  · unfold restrict_branches_check
    exact acl_foldl_eq_lastMatch (old_sha == zeros40) branch pusher settings false
  · unfold restrict_branches_check
    cases hfold : List.foldl (aclStep (old_sha == zeros40) branch pusher) false settings <;>
      simp [hfold]

/-- Claim C4 counterexample: for a branch-creation update (`old_sha` the
all-zero sentinel) of a branch matching the configured pattern, no commit is
reachable from the old tip, yet the guard denies: `is_ff_push` runs
`git rev-list new_sha` and any reachable commit fails it, so the claimed
equivalence is false at this input. -/
theorem deny_non_ff_creation_denied : "c0" ≠ zeros40
    ∧ (matchAllSettings.any fun re =>
        match re with
        | some f => f "refs/heads/master"
        | none => false) = true
    ∧ ¬ (((deny_non_ff_check repoOneCommit matchAllSettings "refs/heads/master"
            zeros40 "c0").fst = true) ↔
          gitRevList repoOneCommit [zeros40] ["c0"] = []) := by
  refine ⟨by decide, by decide, ?_⟩
  intro h
  have h2 : gitRevList repoOneCommit [zeros40] ["c0"] = [] := by decide
  have h3 : (deny_non_ff_check repoOneCommit matchAllSettings "refs/heads/master"
      zeros40 "c0").fst = false := by decide
  rw [h.mpr h2] at h3
  exact absurd h3 (by decide)

/-- Claim C4 (amended): for every update of an existing branch (old id not
the all-zero sentinel, new id not the all-zero deletion sentinel) whose
branch matches some configured compiling pattern, the guard permits iff no
commit is reachable from the old tip but not from the new tip; a denial
carries exactly the single fixed rebase-hint message, and a branch-deletion
update permits with no messages (the source returns before the ancestry
probe). -/
theorem deny_non_ff_ff_iff (r : Repo) (settings : List (Option (String → Bool)))
    (branch old_sha new_sha branch2 old_sha2 : String)
    (hnew : new_sha ≠ zeros40) (hold : old_sha ≠ zeros40)
    (hmatch : (settings.any fun re =>
      match re with
      | some f => f branch
      | none => false) = true) :
    ((deny_non_ff_check r settings branch old_sha new_sha).fst = true ↔
      gitRevList r [old_sha] [new_sha] = [])
    ∧ (deny_non_ff_check r settings branch old_sha new_sha).snd =
        (if (deny_non_ff_check r settings branch old_sha new_sha).fst then []
         else [nonFfMsg new_sha])
    ∧ deny_non_ff_check r settings branch2 old_sha2 zeros40 = (true, []) := by
  have hnewb : (new_sha == zeros40) = false := beq_eq_false_iff_ne.mpr hnew
  have holdb : (old_sha == zeros40) = false := beq_eq_false_iff_ne.mpr hold
  have hfind : (settings.find? fun re =>
      match re with
      | some f => f branch
      | none => false).isSome = true := by
    rw [List.find?_isSome]
    rw [List.any_eq_true] at hmatch
    exact hmatch
  obtain ⟨m, hm⟩ := Option.isSome_iff_exists.mp hfind
  have hcheck : deny_non_ff_check r settings branch old_sha new_sha =
      ((gitRevList r [old_sha] [new_sha]).isEmpty,
       if !(gitRevList r [old_sha] [new_sha]).isEmpty then [nonFfMsg new_sha]
       else []) := by
    unfold deny_non_ff_check is_ff_push
    rw [hnewb, hm, holdb]
    simp
  refine ⟨?_, ?_, ?_⟩
  · rw [hcheck]
    exact ⟨fun h => List.isEmpty_iff.mp h, fun h => List.isEmpty_iff.mpr h⟩
  · rw [hcheck]
    cases (gitRevList r [old_sha] [new_sha]).isEmpty <;> simp
  · unfold deny_non_ff_check
    simp

/-- Witness for the amended claim C4 at a two-way divergence: moving the
branch from `d1` to `d2` is denied with the fixed hint, and deleting a
branch is permitted silently. -/
theorem deny_non_ff_ff_iff_witness :
    (((deny_non_ff_check repoDiverged matchAllSettings "refs/heads/master"
        "d1" "d2").fst = true) ↔
      gitRevList repoDiverged ["d1"] ["d2"] = [])
    ∧ (deny_non_ff_check repoDiverged matchAllSettings "refs/heads/master"
        "d1" "d2").snd =
        (if (deny_non_ff_check repoDiverged matchAllSettings "refs/heads/master"
            "d1" "d2").fst then []
         else [nonFfMsg "d2"])
    ∧ deny_non_ff_check repoDiverged matchAllSettings "refs/heads/b" "d0" zeros40 =
        (true, []) :=
  deny_non_ff_ff_iff repoDiverged matchAllSettings "refs/heads/master" "d1" "d2"
    "refs/heads/b" "d0" (by decide) (by decide) (by decide)

theorem find?_fst_eq_of_nodup (refs : List (String × String)) (p : String × String)
    (hnd : (refs.map Prod.fst).Nodup) (hp : p ∈ refs) :
    refs.find? (fun q => q.fst == p.fst) = some p := by
  induction refs with
  | nil => cases hp
  | cons q rest ih =>
    rw [List.map_cons, List.nodup_cons] at hnd
    cases hq : (q.fst == p.fst) with
    | true =>
      rw [@List.find?_cons_of_pos _ (fun q => q.fst == p.fst) q rest hq]
      rcases List.mem_cons.mp hp with he | hrest
      · rw [he]
      · have h1 : p.fst ∈ rest.map Prod.fst := List.mem_map_of_mem Prod.fst hrest
        rw [← eq_of_beq hq] at h1
        exact absurd h1 hnd.1
    | false =>
      rw [@List.find?_cons_of_neg _ (fun q => q.fst == p.fst) q rest (by simp [hq])]
      rcases List.mem_cons.mp hp with he | hrest
      · subst he
        simp at hq
      · exact ih hnd.2 hrest

theorem refs_excl_iff (r : Repo) (branch c : String)
    (hnd : (r.refs.map Prod.fst).Nodup) :
    (∀ x ∈ ((if branch ∈ r.refs.map Prod.fst
              then (r.refs.map Prod.fst).erase branch
              else r.refs.map Prod.fst).map fun rn => resolveRef r rn),
        reaches r x c = false) ↔
      (∀ p ∈ r.refs, p.fst ≠ branch → reaches r p.snd c = false) := by
  constructor
  · intro h p hp hne
    have hres : resolveRef r p.fst = p.snd := by
      unfold resolveRef
      rw [find?_fst_eq_of_nodup r.refs p hnd hp]
    rw [← hres]
    apply h
    rw [List.mem_map]
    refine ⟨p.fst, ?_, rfl⟩
    by_cases hb : branch ∈ r.refs.map Prod.fst
    · rw [if_pos hb]
      exact (hnd.mem_erase_iff).mpr ⟨hne, List.mem_map_of_mem Prod.fst hp⟩
    · rw [if_neg hb]
      exact List.mem_map_of_mem Prod.fst hp
  · intro h x hx
    rw [List.mem_map] at hx
    obtain ⟨rn, hrn, hres⟩ := hx
    have hrn' : rn ∈ r.refs.map Prod.fst ∧ rn ≠ branch := by
      by_cases hb : branch ∈ r.refs.map Prod.fst
      · rw [if_pos hb] at hrn
        have hh := (hnd.mem_erase_iff).mp hrn
        exact ⟨hh.2, hh.1⟩
      · rw [if_neg hb] at hrn
        exact ⟨hrn, fun he => hb (he ▸ hrn)⟩
    obtain ⟨p, hp, hfst⟩ := List.mem_map.mp hrn'.1
    have hlook : resolveRef r rn = p.snd := by
      unfold resolveRef
      rw [← hfst, find?_fst_eq_of_nodup r.refs p hnd hp]
    rw [← hres, hlook]
    exact h p hp (hfst ▸ hrn'.2)

theorem mem_parse_git_log_iff (r : Repo) (branch old_sha new_sha c : String)
    (hnd : (r.refs.map Prod.fst).Nodup) (hold : old_sha ≠ zeros40) :
    c ∈ parse_git_log r branch old_sha new_sha ↔
      c ∈ r.commits ∧ reaches r new_sha c = true ∧ reaches r old_sha c = false ∧
        ∀ p ∈ r.refs, p.fst ≠ branch → reaches r p.snd c = false := by
  have holdb : (old_sha == zeros40) = false := beq_eq_false_iff_ne.mpr hold
  unfold parse_git_log gitRevList
  rw [holdb]
  rw [List.mem_filter]
  simp only [Bool.false_eq_true, if_false, List.any_cons, List.any_nil,
    Bool.or_false, List.cons_append, List.nil_append, List.all_cons,
    Bool.and_eq_true, List.all_eq_true, Bool.not_eq_true']
  constructor
  · rintro ⟨h1, h2, h3, h4⟩
    exact ⟨h1, h2, h3, (refs_excl_iff r branch c hnd).mp h4⟩
  · rintro ⟨h1, h2, h3, h4⟩
    exact ⟨h1, h2, h3, (refs_excl_iff r branch c hnd).mpr h4⟩

/-- Claim C2: for an update of an existing branch, `parse_git_log` returns
exactly the commits reachable from the new id, not reachable from the old
id, and not reachable from any ref other than the updated one; consequently
it never returns a commit reachable from a sibling ref, so shared ancestors
and the sibling branch commits are excluded. -/
theorem parse_git_log_exclusive (r : Repo) (branch old_sha new_sha c : String)
    (hnd : (r.refs.map Prod.fst).Nodup) (hold : old_sha ≠ zeros40) :
    (c ∈ parse_git_log r branch old_sha new_sha ↔
      c ∈ r.commits ∧ reaches r new_sha c = true ∧ reaches r old_sha c = false ∧
        ∀ p ∈ r.refs, p.fst ≠ branch → reaches r p.snd c = false)
    ∧ ∀ p ∈ r.refs, p.fst ≠ branch →
        ∀ d ∈ parse_git_log r branch old_sha new_sha, reaches r p.snd d = false := by
  refine ⟨mem_parse_git_log_iff r branch old_sha new_sha c hnd hold, ?_⟩
  intro p hp hne d hd
  exact ((mem_parse_git_log_iff r branch old_sha new_sha d hnd hold).mp hd).2.2.2 p hp hne

/-- Witness for claim C2 on two sibling branches `b1` at `c1` and `b2` at
`c2` diverged from `c0`, pushing `c3` to `b1`: the characterisation holds
and nothing reachable from the sibling is enumerated. -/
theorem parse_git_log_exclusive_witness :
    (("c3" ∈ parse_git_log repoSiblings "refs/heads/b1" "c1" "c3") ↔
      "c3" ∈ repoSiblings.commits ∧ reaches repoSiblings "c3" "c3" = true ∧
        reaches repoSiblings "c1" "c3" = false ∧
        ∀ p ∈ repoSiblings.refs, p.fst ≠ "refs/heads/b1" →
          reaches repoSiblings p.snd "c3" = false)
    ∧ ∀ p ∈ repoSiblings.refs, p.fst ≠ "refs/heads/b1" →
        ∀ d ∈ parse_git_log repoSiblings "refs/heads/b1" "c1" "c3",
          reaches repoSiblings p.snd d = false :=
  parse_git_log_exclusive repoSiblings "refs/heads/b1" "c1" "c3" "c3"
    (by decide) (by decide)

/-- Claim C6 (refuted by the code): the temporary scoped index of `get_attr`
is removed exactly when both git commands exit zero; when `git read-tree` or
`git check-attr` fails, `hookutil.run` raises before reaching `os.remove`
and the index file leaks (second component `false`). -/
theorem get_attr_temp_index_removed_iff :
    (get_attr ⟨1, 0, ""⟩ "a.txt" "text" =
        (Except.error PyErr.calledProcessError, false)
      ∧ get_attr ⟨0, 1, ""⟩ "a.txt" "text" =
        (Except.error PyErr.calledProcessError, false)
      ∧ get_attr ⟨0, 0, "a.txt: text: set"⟩ "a.txt" "text" = (Except.ok "set", true))
    ∧ ∀ (call : GitAttrCall) (filename attr : String),
        (get_attr call filename attr).snd = true ↔
          call.readTreeRet = 0 ∧ call.checkAttrRet = 0 := by
  refine ⟨⟨rfl, rfl, rfl⟩, ?_⟩
  intro call filename attr
  unfold get_attr
  by_cases h1 : call.readTreeRet = 0
  · by_cases h2 : call.checkAttrRet = 0
    · have hb1 : (call.readTreeRet != 0) = false := by simp [h1]
      have hb2 : (call.checkAttrRet != 0) = false := by simp [h2]
      rw [hb1, hb2]
      simp only [Bool.false_eq_true, if_false]
      constructor
      · intro _
        exact ⟨h1, h2⟩
      · intro _
        rcases hc : (splitOnChar ':' call.checkAttrOut.data).map
            (fun g => pyStrip (String.mk g)) with
          _ | ⟨c0, _ | ⟨c1, _ | ⟨c2, rest⟩⟩⟩ <;>
          simp [hc, apply_ite Prod.snd]
    · have hb1 : (call.readTreeRet != 0) = false := by simp [h1]
      have hb2 : (call.checkAttrRet != 0) = true := by simp [h2]
      rw [hb1, hb2]
      simp [h2]
  · have hb1 : (call.readTreeRet != 0) = true := by simp [h1]
    rw [hb1]
    simp [h1]

theorem pyCall_kwarg_this_branch_only (x : List String) :
    pyCall parse_git_log_sig 4 ["this_branch_only"] x =
      Except.error PyErr.typeError := rfl

theorem except_error_bind (e : PyErr) (f : α → Except PyErr β) :
    (Except.error e >>= f) = Except.error e := rfl

/-- Claim C7 counterexample: when the pycodestyle import failed, the pep8
check returns the verdict permit with no messages on a non-deletion update
instead of raising, so not all three checks always raise `TypeError`. -/
theorem pep8_returns_verdict_without_pycodestyle :
    "c0" ≠ zeros40
    ∧ pep8hook_check false repoOneCommit "refs/heads/master" "o" "c0" =
        Except.ok (true, []) :=
  ⟨by decide, rfl⟩

/-- Claim C7 (amended): on every non-deletion ref update, the copyright check
with non-empty settings, the same-branch-merge check, and the pep8 check
with pycodestyle imported all raise `TypeError` before producing any
verdict, because each calls `parse_git_log` with the keyword argument
`this_branch_only` that its signature does not accept. -/
theorem kwarg_checks_raise_typeerror (reSearch : String → String → Bool)
    (r : Repo) (settings : List (String × String))
    (branch old_sha new_sha : String)
    (hnew : new_sha ≠ zeros40) (hset : settings ≠ []) :
    copyright_check reSearch r settings branch old_sha new_sha =
        Except.error PyErr.typeError
    ∧ rejectmerge_check r branch old_sha new_sha = Except.error PyErr.typeError
    ∧ pep8hook_check true r branch old_sha new_sha = Except.error PyErr.typeError := by
  have hnewb : (new_sha == zeros40) = false := beq_eq_false_iff_ne.mpr hnew
  have hempty : settings.isEmpty = false := by
    cases settings with
    | nil => exact absurd rfl hset
    | cons a l => rfl
  refine ⟨?_, ?_, ?_⟩ <;>
    simp [copyright_check, rejectmerge_check, pep8hook_check, hnewb, hempty,
      pyCall_kwarg_this_branch_only, except_error_bind]

/-- Witness for the amended claim C7 at a concrete non-deletion update. -/
theorem kwarg_checks_raise_typeerror_witness :
    copyright_check (fun _ _ => false) repoOneCommit [("(c)", "(c) 2016")]
        "refs/heads/master" "o" "c0" = Except.error PyErr.typeError
    ∧ rejectmerge_check repoOneCommit "refs/heads/master" "o" "c0" =
        Except.error PyErr.typeError
    ∧ pep8hook_check true repoOneCommit "refs/heads/master" "o" "c0" =
        Except.error PyErr.typeError :=
  kwarg_checks_raise_typeerror (fun _ _ => false) repoOneCommit [("(c)", "(c) 2016")]
    "refs/heads/master" "o" "c0" (by decide) (by decide)

/-- Claim C8: `line_endings.Hook` does not satisfy the loader and evaluator
contract: its two-parameter constructor rejects the three arguments the
loader passes, so a configuration declaring `line_endings` makes loading
raise `TypeError` before any ref update is evaluated; and its four-parameter
`check` could not accept the three arguments the evaluator passes either. -/
theorem line_endings_hook_contract_mismatch (conf : List String)
    (hknown : ∀ n ∈ conf, (hook_ctor_params n).isSome = true)
    (hmem : "line_endings" ∈ conf) :
    githooksLoad conf = Except.error PyErr.typeError
    ∧ pyArityOk line_endings_check_params 3 [] = false := by
  refine ⟨?_, rfl⟩
  suffices H : ∀ (conf2 : List String),
      (∀ n ∈ conf2, (hook_ctor_params n).isSome = true) →
      "line_endings" ∈ conf2 →
      ∀ hooks, githooksLoadAux conf2 hooks = Except.error PyErr.typeError by
    exact H conf hknown hmem []
  intro conf2
  induction conf2 with
  | nil =>
    intro _ hmem2
    cases hmem2
  | cons n rest ih =>
    intro hknown2 hmem2 hooks
    by_cases h3 : three_param_hooks.contains n = true
    · have hn : n ≠ "line_endings" := by
        intro he
        rw [he] at h3
        exact absurd h3 (by decide)
      have hctor : hook_ctor_params n = some ["repo_dir", "settings", "params"] := by
        unfold hook_ctor_params
        rw [if_pos h3]
      have hok : pyCall ["repo_dir", "settings", "params"] 3 [] n = Except.ok n := rfl
      simp only [githooksLoadAux, hctor, hok]
      exact ih (fun m hm => hknown2 m (List.mem_cons_of_mem n hm))
        (by
          rcases List.mem_cons.mp hmem2 with he | h
          · exact absurd he.symm hn
          · exact h)
        (hooks ++ [n])
    · by_cases hle : n = "line_endings"
      · have hctor : hook_ctor_params n = some ["repo_dir", "settings"] := by
          rw [hle]
          decide
        have herr : pyCall ["repo_dir", "settings"] 3 [] n =
            Except.error PyErr.typeError := rfl
        simp only [githooksLoadAux, hctor, herr]
      · have hnsome := hknown2 n (List.mem_cons_self n rest)
        have hctor : hook_ctor_params n = none := by
          unfold hook_ctor_params
          rw [if_neg h3, if_neg (by simp [hle])]
        rw [hctor] at hnsome
        exact absurd hnsome (by decide)

/-- Witness for claim C8: a configuration declaring `restrict_branches` and
`line_endings` fails to load with `TypeError`. -/
theorem line_endings_hook_contract_mismatch_witness :
    githooksLoad ["restrict_branches", "line_endings"] =
        Except.error PyErr.typeError
    ∧ pyArityOk line_endings_check_params 3 [] = false :=
  line_endings_hook_contract_mismatch ["restrict_branches", "line_endings"]
    (by decide) (by decide)

/-- Claim C9 (code bug): on a non-deletion update whose commit message
mentions `@somebody`, `compose_mail` produces exactly one notification
addressed to `somebody@gmail.com`, and a plain embedded email address is not
treated as a mention; but `check` then calls `send_mail` with five
positional arguments against its three parameters, so instead of returning
permit with no messages it raises `TypeError`. -/
theorem email_mention_one_notification_then_typeerror :
    email_mention_recipients repoMention "gmail.com" "refs/heads/master"
        zeros40 "m0" = ["somebody@gmail.com"]
    ∧ findMentions "Some feature somebody@gmail.com" = []
    ∧ email_mention_check repoMention "gmail.com" "refs/heads/master"
        zeros40 "m0" = Except.error PyErr.typeError :=
  ⟨by decide, by decide, rfl⟩

theorem startswith1_space_not_tab (l : String) (h : startswith1 l ' ' = true) :
    startswith1 l '\t' = false := by
  unfold startswith1 at h ⊢
  rw [eq_of_beq h]
  rfl

theorem hasMixedIndentLoop_closed (lines : List String) (ht hs : Bool) :
    hasMixedIndentLoop lines ht hs =
      (!lines.isEmpty
        && (ht || lines.any fun l => startswith1 l '\t')
        && (hs || lines.any fun l => !startswith1 l '\t' && startswith1 l ' ')) := by
  induction lines generalizing ht hs with
  | nil => rfl
  | cons line rest ih =>
    simp only [hasMixedIndentLoop]
    rw [ih]
    cases rest with
    | nil =>
      simp only [List.any_cons, List.any_nil, List.isEmpty_cons, List.isEmpty_nil,
        Bool.or_false, Bool.not_false, Bool.not_true]
      generalize startswith1 line '\t' = t
      generalize startswith1 line ' ' = s
      revert ht hs t s
      decide
    | cons l2 rest2 =>
      simp only [List.any_cons, List.isEmpty_cons, Bool.not_false]
      generalize startswith1 line '\t' = t
      generalize startswith1 line ' ' = s
      generalize startswith1 l2 '\t' = t2
      generalize startswith1 l2 ' ' = s2
      generalize (rest2.any fun l => startswith1 l '\t') = aT
      generalize (rest2.any fun l => !startswith1 l '\t' && startswith1 l ' ') = aS
      revert ht hs t s t2 s2 aT aS
      decide

theorem has_mixed_indent_iff (s : String) :
    has_mixed_indent s = true ↔
      (∃ l ∈ pySplit '\n' s, startswith1 l '\t' = true)
      ∧ ∃ l ∈ pySplit '\n' s, startswith1 l ' ' = true := by
  unfold has_mixed_indent
  rw [hasMixedIndentLoop_closed]
  simp only [Bool.false_or, Bool.and_eq_true, Bool.not_eq_true', List.any_eq_true,
    Bool.and_eq_true]
  constructor
  · rintro ⟨⟨-, l1, hl1, ht⟩, l2, hl2, hsp⟩
    exact ⟨⟨l1, hl1, ht⟩, ⟨l2, hl2, hsp.2⟩⟩
  · rintro ⟨⟨l1, hl1, ht⟩, l2, hl2, hsp⟩
    have hne : pySplit '\n' s ≠ [] := List.ne_nil_of_mem hl1
    have hemp : (pySplit '\n' s).isEmpty = false := by
      cases hps : pySplit '\n' s with
      | nil => exact absurd hps hne
      | cons a l => rfl
    exact ⟨⟨hemp, l1, hl1, ht⟩,
      ⟨l2, hl2, startswith1_space_not_tab l2 hsp, hsp⟩⟩

theorem py_indent_files_foldl (r : Repo) (commit : String) (fs : List FileChange)
    (b : Bool) (ms : List Msg) :
    fs.foldl (py_indent_file_step r commit) (b, ms) =
      (b && fs.all fun f => f.status == "D" || !has_mixed_indent (r.blob f.new_blob),
       ms ++ fs.filterMap fun f =>
         if f.status != "D" && has_mixed_indent (r.blob f.new_blob) then
           some (pyIndentMsg commit f.path)
         else none) := by
  induction fs generalizing b ms with
  | nil => simp
  | cons f fs ih =>
    rw [List.foldl_cons]
    by_cases hD : (f.status == "D") = true
    · have hstep : py_indent_file_step r commit (b, ms) f = (b, ms) := by
        unfold py_indent_file_step
        rw [if_pos hD]
      rw [hstep, ih]
      simp [List.filterMap_cons, eq_of_beq hD]
    · have hDf : (f.status == "D") = false := by
        cases hd2 : (f.status == "D") with
        | true => exact absurd hd2 hD
        | false => rfl
      cases hm : has_mixed_indent (r.blob f.new_blob) with
      | true =>
        have hstep : py_indent_file_step r commit (b, ms) f =
            (b && false, ms ++ [pyIndentMsg commit f.path]) := by
          simp only [py_indent_file_step]
          rw [hDf, hm]
          rfl
        rw [hstep, ih]
        simp [hDf, hm, beq_eq_false_iff_ne.mp hDf, List.filterMap_cons]
      | false =>
        have hstep : py_indent_file_step r commit (b, ms) f = (b && true, ms) := by
          simp only [py_indent_file_step]
          rw [hDf, hm]
          rfl
        rw [hstep, ih]
        simp [hDf, hm, beq_eq_false_iff_ne.mp hDf, List.filterMap_cons]

theorem py_indent_commits_foldl (r : Repo) (log : List String)
    (b : Bool) (ms : List Msg) :
    log.foldl (py_indent_commit_step r) (b, ms) =
      (b && log.all fun c =>
        (parse_git_show r c (some [".py"])).all fun f =>
          f.status == "D" || !has_mixed_indent (r.blob f.new_blob),
       ms ++ log.bind fun c =>
         (parse_git_show r c (some [".py"])).filterMap fun f =>
           if f.status != "D" && has_mixed_indent (r.blob f.new_blob) then
             some (pyIndentMsg c f.path)
           else none) := by
  induction log generalizing b ms with
  | nil => simp
  | cons c log ih =>
    rw [List.foldl_cons]
    have hstep : py_indent_commit_step r (b, ms) c =
        (b && (parse_git_show r c (some [".py"])).all fun f =>
          f.status == "D" || !has_mixed_indent (r.blob f.new_blob),
         ms ++ (parse_git_show r c (some [".py"])).filterMap fun f =>
           if f.status != "D" && has_mixed_indent (r.blob f.new_blob) then
             some (pyIndentMsg c f.path)
           else none) := py_indent_files_foldl r c _ b ms
    rw [hstep, ih]
    simp [Bool.and_assoc, List.append_assoc]

/-- Claim C10: on every non-deletion ref update, the indentation check denies
iff some non-deleted changed `.py` file of some enumerated commit has, in
its new blob content, a line beginning with a tab and a line beginning with
a space; the messages are exactly one
`Error: file <path> has mixed indentation` entry per offending file,
anchored at its commit, in enumeration order (so a spaces-only file never
denies). -/
theorem py_indent_mixed_deny_iff (r : Repo) (branch old_sha new_sha : String)
    (hnew : new_sha ≠ zeros40) :
    ((py_indent_check r branch old_sha new_sha).fst = false ↔
      ∃ commit ∈ parse_git_log r branch old_sha new_sha,
        ∃ f ∈ parse_git_show r commit (some [".py"]),
          f.status ≠ "D"
          ∧ (∃ l ∈ pySplit '\n' (r.blob f.new_blob), startswith1 l '\t' = true)
          ∧ ∃ l ∈ pySplit '\n' (r.blob f.new_blob), startswith1 l ' ' = true)
    ∧ (py_indent_check r branch old_sha new_sha).snd =
        (parse_git_log r branch old_sha new_sha).bind fun commit =>
          (parse_git_show r commit (some [".py"])).filterMap fun f =>
            if f.status != "D" && has_mixed_indent (r.blob f.new_blob) then
              some (pyIndentMsg commit f.path)
            else none := by
  have hnewb : (new_sha == zeros40) = false := beq_eq_false_iff_ne.mpr hnew
  have hch : py_indent_check r branch old_sha new_sha =
      ((parse_git_log r branch old_sha new_sha).all fun c =>
        (parse_git_show r c (some [".py"])).all fun f =>
          f.status == "D" || !has_mixed_indent (r.blob f.new_blob),
       (parse_git_log r branch old_sha new_sha).bind fun c =>
         (parse_git_show r c (some [".py"])).filterMap fun f =>
           if f.status != "D" && has_mixed_indent (r.blob f.new_blob) then
             some (pyIndentMsg c f.path)
           else none) := by
    unfold py_indent_check
    rw [hnewb]
    simp only [Bool.false_eq_true, if_false]
    rw [py_indent_commits_foldl]
    simp
  refine ⟨?_, by rw [hch]⟩
  rw [hch]
  constructor
  · intro h
    rw [List.all_eq_false] at h
    obtain ⟨c, hc, hPc⟩ := h
    rw [Bool.not_eq_true, List.all_eq_false] at hPc
    obtain ⟨f, hf, hQf⟩ := hPc
    rw [Bool.not_eq_true, Bool.or_eq_false_iff] at hQf
    obtain ⟨hsD, hnm⟩ := hQf
    have hmx : has_mixed_indent (r.blob f.new_blob) = true := by
      revert hnm
      cases has_mixed_indent (r.blob f.new_blob) <;> decide
    obtain ⟨htab, hsp⟩ := (has_mixed_indent_iff (r.blob f.new_blob)).mp hmx
    exact ⟨c, hc, f, hf, beq_eq_false_iff_ne.mp hsD, htab, hsp⟩
  · rintro ⟨c, hc, f, hf, hsne, htab, hsp⟩
    rw [List.all_eq_false]
    refine ⟨c, hc, ?_⟩
    rw [Bool.not_eq_true, List.all_eq_false]
    refine ⟨f, hf, ?_⟩
    rw [Bool.not_eq_true, Bool.or_eq_false_iff]
    refine ⟨beq_eq_false_iff_ne.mpr hsne, ?_⟩
    rw [(has_mixed_indent_iff (r.blob f.new_blob)).mpr ⟨htab, hsp⟩]
    rfl

/-- Witness for claim C10 at a push of one commit changing `a.py` (mixed
indentation) and `b.py` (spaces only). -/
theorem py_indent_mixed_deny_iff_witness :
    (((py_indent_check repoPyIndent "refs/heads/master" zeros40 "p0").fst = false) ↔
      ∃ commit ∈ parse_git_log repoPyIndent "refs/heads/master" zeros40 "p0",
        ∃ f ∈ parse_git_show repoPyIndent commit (some [".py"]),
          f.status ≠ "D"
          ∧ (∃ l ∈ pySplit '\n' (repoPyIndent.blob f.new_blob),
              startswith1 l '\t' = true)
          ∧ ∃ l ∈ pySplit '\n' (repoPyIndent.blob f.new_blob),
              startswith1 l ' ' = true)
    ∧ (py_indent_check repoPyIndent "refs/heads/master" zeros40 "p0").snd =
        (parse_git_log repoPyIndent "refs/heads/master" zeros40 "p0").bind
          fun commit =>
            (parse_git_show repoPyIndent commit (some [".py"])).filterMap fun f =>
              if f.status != "D" && has_mixed_indent (repoPyIndent.blob f.new_blob)
              then some (pyIndentMsg commit f.path)
              else none :=
  py_indent_mixed_deny_iff repoPyIndent "refs/heads/master" zeros40 "p0" (by decide)
